import Mathlib

/-!
Verification of the identity-tracking / velocity-gating subsystem of
SpeedTracking (src/backgroundSub.py) against its natural-language
specification.

Embedding conventions:
* pixel x-coordinates of centroids are `ℤ`;
* wall-clock timestamps (`time.time()`) and velocity values are `ℚ`;
* the velocity gate's `velCentroids` dict (object id → entry timestamp)
  is a function `ℕ → Option ℚ`;
* the per-frame id → centroid mapping produced by the tracker is an
  association list `List (ℕ × ℤ)` carrying only the x-coordinate that the
  gate inspects, iterated in order as the `for ... in centoids.items()`
  loop does.
-/

namespace SpeedTracking

/-- The gate's per-identity state: object id ↦ entry timestamp
(the `velCentroids` dict of `main`). -/
def GateState : Type := ℕ → Option ℚ

/-- `velCentroids[objectID] = start_time` (backgroundSub.py line 107). -/
def gInsert (g : GateState) (objectID : ℕ) (t : ℚ) : GateState :=
  fun j => if j = objectID then some t else g j

/-- `del velCentroids[objectID]` (backgroundSub.py line 117). -/
def gErase (g : GateState) (objectID : ℕ) : GateState :=
  fun j => if j = objectID then none else g j

/-- Configuration of the velocity gate: the two boundary x-coordinates,
the known physical distance and the rate-scaling factor.
backgroundSub.py hard-codes 200, 600, 0.002 and 3600; the definitions
below abstract them as parameters, and `srcCfg` instantiates them with
the source's constants. -/
structure GateCfg where
  leftBound : ℤ
  rightBound : ℤ
  knownDistance : ℚ
  rateScale : ℚ

/-- The constants used in backgroundSub.py: lines 77 (distance = .002),
102 (`200 < centroid[0] < 600`), 115 (`* 3600`). -/
def srcCfg : GateCfg :=
  { leftBound := 200, rightBound := 600, knownDistance := 1/500, rateScale := 3600 }

/-- One iteration of the `for (objectID, centroid) in centoids.items()` loop
body, lines 100–118 of backgroundSub.py, restricted to its effect on
`velCentroids` and the emitted reading:

* if `leftBound < cx < rightBound` and the id has no entry, record `now`;
* otherwise (elif) if the id has an entry and `cx < leftBound or cx > rightBound`,
  emit `(knownDistance / (now - entryTime)) * rateScale` and delete the entry.

Returns the new gate state together with the reading emitted for this id,
if any (the source prints it). -/
def gateStep (cfg : GateCfg) (now : ℚ) (g : GateState) (objectID : ℕ) (cx : ℤ) :
    GateState × Option (ℕ × ℚ) :=
  if cfg.leftBound < cx ∧ cx < cfg.rightBound then
    match g objectID with
    | none => (gInsert g objectID now, none)
    | some _ => (g, none)
  else
    match g objectID with
    | none => (g, none)
    | some t0 =>
      if cx < cfg.leftBound ∨ cfg.rightBound < cx then
        (gErase g objectID, some (objectID, cfg.knownDistance / (now - t0) * cfg.rateScale))
      else (g, none)

/-- One full `observe` call of the Velocity Gate: the loop of
backgroundSub.py lines 100–121 over the frame's id → centroid mapping,
threading `velCentroids` through and collecting emitted readings in
iteration order. -/
def observe (cfg : GateCfg) (now : ℚ) :
    List (ℕ × ℤ) → GateState → GateState × List (ℕ × ℚ)
  | [], g => (g, [])
  | p :: rest, g =>
    let s := gateStep cfg now g p.1 p.2
    let r := observe cfg now rest s.1
    (r.1, s.2.toList ++ r.2)

/-- A sequence of `observe` calls (one per frame), each with its own
timestamp and frame mapping, collecting all emitted readings. -/
def observeRun (cfg : GateCfg) :
    List (ℚ × List (ℕ × ℤ)) → GateState → GateState × List (ℕ × ℚ)
  | [], g => (g, [])
  | c :: rest, g =>
    let s := observe cfg c.1 c.2 g
    let r := observeRun cfg rest s.1
    (r.1, s.2 ++ r.2)

/-- The readings a call emitted for one particular identity. -/
def readingsFor (objectID : ℕ) (rs : List (ℕ × ℚ)) : List (ℕ × ℚ) :=
  rs.filter (fun p => p.1 == objectID)

/-- The gate state holding no entry at all (fresh `velCentroids = {}`). -/
def gEmpty : GateState := fun _ => none

/-- Modelled from the spec: the `TrackedObject` of §3 — the
`CentroidTracker` of objTrack.py is imported by backgroundSub.py but its
source is not in the repository snapshot, so the Identity Tracker is
modelled from spec §3/§4.1.  `id` is kept as the key of the registry
association list; here only `centroid` and `disappearedCount`. -/
structure TrackedObject where
  centroid : ℤ × ℤ
  disappeared : ℕ
deriving DecidableEq

/-- Modelled from the spec: one Identity Tracker instance — the registry
(id → TrackedObject), the next unused id, and the `maxDisappeared`
configuration parameter (§3, §4.1, §6). -/
structure Tracker where
  registry : List (ℕ × TrackedObject)
  nextId : ℕ
  maxDisappeared : ℕ
deriving DecidableEq

/-- Modelled from the spec: Centroid of a BoundingBox
`((x_min+x_max)/2, (y_min+y_max)/2)` with truncating integer division
(§3). -/
def centroidOf (b : ℤ × ℤ × ℤ × ℤ) : ℤ × ℤ :=
  (Int.tdiv (b.1 + b.2.2.1) 2, Int.tdiv (b.2.1 + b.2.2.2) 2)

/-- Squared Euclidean distance: compared in place of the Euclidean
distance of §4.1, which orders pairs identically. -/
def sqDist (a b : ℤ × ℤ) : ℤ := (a.1 - b.1) ^ 2 + (a.2 - b.2) ^ 2

/-- Modelled from the spec: the greedy-selection order of §4.1 — smaller
distance first, ties broken by lowest existing-object id, then lowest
input-centroid index.  A candidate is (distance, object id, column index). -/
def candLt (p q : ℤ × ℕ × ℕ) : Prop :=
  p.1 < q.1 ∨ (p.1 = q.1 ∧ (p.2.1 < q.2.1 ∨ (p.2.1 = q.2.1 ∧ p.2.2 < q.2.2)))

instance (p q : ℤ × ℕ × ℕ) : Decidable (candLt p q) := by
  unfold candLt
  infer_instance

/-- The globally smallest remaining candidate under `candLt`. -/
def minCand : List (ℤ × ℕ × ℕ) → Option (ℤ × ℕ × ℕ)
  | [] => none
  | p :: ps => some (ps.foldl (fun b q => if candLt q b then q else b) p)

/-- Modelled from the spec: the full cost matrix of §4.1 as the list of
(distance, object id, column index) candidates. -/
def allCands (rows cols : List (ℕ × (ℤ × ℤ))) : List (ℤ × ℕ × ℕ) :=
  (rows.map fun r => cols.map fun c => (sqDist r.2 c.2, r.1, c.1)).flatten

/-- Modelled from the spec: greedy nearest-neighbor bipartite matching
(§4.1 step 4): repeatedly take the globally smallest remaining candidate,
record the (object id, column index) pair, drop that row and column, until
rows or columns are exhausted.  Fuel bounds the recursion by the number of
rows. -/
def greedyMatch : ℕ → List (ℕ × (ℤ × ℤ)) → List (ℕ × (ℤ × ℤ)) → List (ℕ × ℕ)
  | 0, _, _ => []
  | fuel + 1, rows, cols =>
    match minCand (allCands rows cols) with
    | none => []
    | some m =>
      (m.2.1, m.2.2) ::
        greedyMatch fuel (rows.filter fun r => decide (r.1 ≠ m.2.1))
          (cols.filter fun c => decide (c.1 ≠ m.2.2))

/-- Modelled from the spec: register one centroid as a new TrackedObject
with the next unused id and disappearedCount 0 (§4.1). -/
def registerOne (t : Tracker) (c : ℤ × ℤ) : Tracker :=
  { t with registry := t.registry ++ [(t.nextId, ⟨c, 0⟩)], nextId := t.nextId + 1 }

/-- Register every centroid of the list in order. -/
def registerAll (t : Tracker) (cs : List (ℤ × ℤ)) : Tracker :=
  cs.foldl registerOne t

/-- The entries `registerAll` appends: consecutive fresh ids from `n`. -/
def freshEntries : ℕ → List (ℤ × ℤ) → List (ℕ × TrackedObject)
  | _, [] => []
  | n, c :: rest => (n, ⟨c, 0⟩) :: freshEntries (n + 1) rest

/-- Modelled from the spec: the empty-input frame (§4.1 step 3) —
increment every disappearedCount, deregister any object whose count now
exceeds `maxDisappeared`. -/
def updateEmpty (t : Tracker) : Tracker :=
  { t with registry :=
      ((t.registry.map fun e => (e.1, TrackedObject.mk e.2.centroid (e.2.disappeared + 1))).filter
        fun e => decide (e.2.disappeared ≤ t.maxDisappeared)) }

/-- Input centroid at a given column index. -/
def colLookup (cols : List (ℕ × (ℤ × ℤ))) (i : ℕ) : Option (ℤ × ℤ) :=
  (cols.find? fun c => c.1 == i).map fun c => c.2

/-- The column matched to object id `i`, if any. -/
def matchedCol (ms : List (ℕ × ℕ)) (i : ℕ) : Option ℕ :=
  (ms.find? fun m => m.1 == i).map fun m => m.2

/-- The rows of the cost matrix: (id, current centroid) of every
registered object. -/
def matchRows (t : Tracker) : List (ℕ × (ℤ × ℤ)) :=
  t.registry.map fun e => (e.1, e.2.centroid)

/-- The greedy matching of the current registry against the indexed input
centroids. -/
def matchesOf (t : Tracker) (cs : List (ℤ × ℤ)) : List (ℕ × ℕ) :=
  greedyMatch (matchRows t).length (matchRows t) cs.enum

/-- Modelled from the spec (§4.1 step 4), the fate of one existing object:
a matched object takes the matched input centroid with disappearedCount 0
(the colLookup fallback is unreachable, every match's column is a real
column); an unmatched object gets its count incremented and is dropped
when the count exceeds `maxDisappeared`. -/
def keptObj (m : ℕ) (ms : List (ℕ × ℕ)) (cols : List (ℕ × (ℤ × ℤ)))
    (e : ℕ × TrackedObject) : Option TrackedObject :=
  match matchedCol ms e.1 with
  | some ci =>
    match colLookup cols ci with
    | some c => some ⟨c, 0⟩
    | none => some ⟨e.2.centroid, 0⟩
  | none =>
    if e.2.disappeared + 1 ≤ m
    then some ⟨e.2.centroid, e.2.disappeared + 1⟩
    else none

/-- Modelled from the spec (§4.1 step 4): the surviving rows, each keeping
its id. -/
def keptRegistry (t : Tracker) (cs : List (ℤ × ℤ)) : List (ℕ × TrackedObject) :=
  t.registry.filterMap fun e =>
    (keptObj t.maxDisappeared (matchesOf t cs) cs.enum e).map fun o => (e.1, o)

/-- The input centroids whose column received no match, in column order. -/
def unmatchedCentroids (t : Tracker) (cs : List (ℤ × ℤ)) : List (ℤ × ℤ) :=
  (cs.enum.filter fun c => decide (∀ m ∈ matchesOf t cs, m.2 ≠ c.1)).map fun c => c.2

/-- Modelled from the spec (§4.1 step 4): the matching frame — update
matched rows, age/deregister unmatched rows, register unmatched columns. -/
def updateMatched (t : Tracker) (cs : List (ℤ × ℤ)) : Tracker :=
  registerAll { t with registry := keptRegistry t cs } (unmatchedCentroids t cs)

/-- Modelled from the spec: `update(boxes)` of the Identity Tracker
(§4.1): derive centroids, then (2) register all when the registry is
empty, (3) age everyone on empty input, (4) greedy matching otherwise;
return the mapping of all registered ids to current centroids. -/
def Tracker.update (t : Tracker) (boxes : List (ℤ × ℤ × ℤ × ℤ)) :
    Tracker × List (ℕ × (ℤ × ℤ)) :=
  let cs := boxes.map centroidOf
  let t2 :=
    if t.registry.isEmpty then registerAll t cs
    else if cs.isEmpty then updateEmpty t
    else updateMatched t cs
  (t2, t2.registry.map fun e => (e.1, e.2.centroid))

/-- One contour as the vision library reports it to `findContours` of
backgroundSub.py: `cv.contourArea` as a rational, `cv.boundingRect` as
x, y and the non-negative width and height (the library contract). -/
structure Contour where
  area : ℚ
  rectX : ℤ
  rectY : ℤ
  rectW : ℕ
  rectH : ℕ

/-- The box `[x, y, x+w, y+h]` built at line 52 of backgroundSub.py. -/
def boundingBoxOf (c : Contour) : ℤ × ℤ × ℤ × ℤ :=
  (c.rectX, c.rectY, c.rectX + c.rectW, c.rectY + c.rectH)

/-- The loop of `findContours` (backgroundSub.py lines 47–55): box every
contour whose area exceeds 1000, in contour-iteration order. -/
def findContours : List Contour → List (ℤ × ℤ × ℤ × ℤ)
  | [] => []
  | c :: rest =>
    if 1000 < c.area then boundingBoxOf c :: findContours rest
    else findContours rest

theorem observe_nil (cfg : GateCfg) (now : ℚ) (g : GateState) :
    observe cfg now [] g = (g, []) := rfl

theorem observe_cons (cfg : GateCfg) (now : ℚ) (p : ℕ × ℤ) (rest : List (ℕ × ℤ))
    (g : GateState) :
    observe cfg now (p :: rest) g =
      ((observe cfg now rest (gateStep cfg now g p.1 p.2).1).1,
        (gateStep cfg now g p.1 p.2).2.toList ++
          (observe cfg now rest (gateStep cfg now g p.1 p.2).1).2) := rfl

theorem observeRun_nil (cfg : GateCfg) (g : GateState) :
    observeRun cfg [] g = (g, []) := rfl

theorem observeRun_cons (cfg : GateCfg) (c : ℚ × List (ℕ × ℤ))
    (rest : List (ℚ × List (ℕ × ℤ))) (g : GateState) :
    observeRun cfg (c :: rest) g =
      ((observeRun cfg rest (observe cfg c.1 c.2 g).1).1,
        (observe cfg c.1 c.2 g).2 ++ (observeRun cfg rest (observe cfg c.1 c.2 g).1).2) := rfl

theorem readingsFor_append (objectID : ℕ) (a b : List (ℕ × ℚ)) :
    readingsFor objectID (a ++ b) = readingsFor objectID a ++ readingsFor objectID b := by
  simp [readingsFor]

theorem readingsFor_single_ne (j : ℕ) (q : ℕ × ℚ) (h : q.1 ≠ j) :
    readingsFor j [q] = [] := by
  simp [readingsFor, h]

/-- Inside the zone with no entry: record `now` (line 107). -/
theorem gateStep_inside_new (cfg : GateCfg) (now : ℚ) (g : GateState) (i : ℕ) (cx : ℤ)
    (hin : cfg.leftBound < cx ∧ cx < cfg.rightBound) (hg : g i = none) :
    gateStep cfg now g i cx = (gInsert g i now, none) := by
  simp [gateStep, hg, hin]

/-- Inside the zone with an entry: no change (the dict keeps the first time). -/
theorem gateStep_inside_old (cfg : GateCfg) (now : ℚ) (g : GateState) (i : ℕ) (cx : ℤ)
    (t0 : ℚ) (hin : cfg.leftBound < cx ∧ cx < cfg.rightBound) (hg : g i = some t0) :
    gateStep cfg now g i cx = (g, none) := by
  simp [gateStep, hg, hin]

/-- Outside the zone with no entry: no change. -/
theorem gateStep_out_none (cfg : GateCfg) (now : ℚ) (g : GateState) (i : ℕ) (cx : ℤ)
    (hout : ¬(cfg.leftBound < cx ∧ cx < cfg.rightBound)) (hg : g i = none) :
    gateStep cfg now g i cx = (g, none) := by
  simp [gateStep, hg, hout]

/-- Strictly outside both bounds with an entry: emit and delete (lines 112–117). -/
theorem gateStep_exit (cfg : GateCfg) (now : ℚ) (g : GateState) (i : ℕ) (cx : ℤ)
    (t0 : ℚ) (hstrict : cx < cfg.leftBound ∨ cfg.rightBound < cx) (hg : g i = some t0) :
    gateStep cfg now g i cx =
      (gErase g i, some (i, cfg.knownDistance / (now - t0) * cfg.rateScale)) := by
  have hout : ¬(cfg.leftBound < cx ∧ cx < cfg.rightBound) := by
    rcases hstrict with h | h <;> omega
  simp [gateStep, hg, hout, hstrict]

/-- Exactly on a bound with an entry: neither branch fires, no change. -/
theorem gateStep_boundary (cfg : GateCfg) (now : ℚ) (g : GateState) (i : ℕ) (cx : ℤ)
    (t0 : ℚ) (hout : ¬(cfg.leftBound < cx ∧ cx < cfg.rightBound))
    (hnstrict : ¬(cx < cfg.leftBound ∨ cfg.rightBound < cx)) (hg : g i = some t0) :
    gateStep cfg now g i cx = (g, none) := by
  simp [gateStep, hg, hout, hnstrict]

/-- Processing one id leaves every other id's gate entry untouched. -/
theorem gateStep_fst_ne (cfg : GateCfg) (now : ℚ) (g : GateState) (i : ℕ) (cx : ℤ)
    (j : ℕ) (hj : j ≠ i) :
    (gateStep cfg now g i cx).1 j = g j := by
  cases hg : g i with
  | none =>
    by_cases hin : cfg.leftBound < cx ∧ cx < cfg.rightBound
    · rw [gateStep_inside_new cfg now g i cx hin hg]
      simp [gInsert, hj]
    · rw [gateStep_out_none cfg now g i cx hin hg]
  | some t0 =>
    by_cases hin : cfg.leftBound < cx ∧ cx < cfg.rightBound
    · rw [gateStep_inside_old cfg now g i cx t0 hin hg]
    · by_cases hs : cx < cfg.leftBound ∨ cfg.rightBound < cx
      · rw [gateStep_exit cfg now g i cx t0 hs hg]
        simp [gErase, hj]
      · rw [gateStep_boundary cfg now g i cx t0 hin hs hg]

/-- A reading emitted while processing id `i` carries id `i`. -/
theorem gateStep_emit_key (cfg : GateCfg) (now : ℚ) (g : GateState) (i : ℕ) (cx : ℤ)
    (q : ℕ × ℚ) (h : (gateStep cfg now g i cx).2 = some q) : q.1 = i := by
  cases hg : g i with
  | none =>
    by_cases hin : cfg.leftBound < cx ∧ cx < cfg.rightBound
    · rw [gateStep_inside_new cfg now g i cx hin hg] at h
      simp at h
    · rw [gateStep_out_none cfg now g i cx hin hg] at h
      simp at h
  | some t0 =>
    by_cases hin : cfg.leftBound < cx ∧ cx < cfg.rightBound
    · rw [gateStep_inside_old cfg now g i cx t0 hin hg] at h
      simp at h
    · by_cases hs : cx < cfg.leftBound ∨ cfg.rightBound < cx
      · rw [gateStep_exit cfg now g i cx t0 hs hg] at h
        have h2 : (i, cfg.knownDistance / (now - t0) * cfg.rateScale) = q := by
          exact Option.some_injective _ h
        rw [← h2]
      · rw [gateStep_boundary cfg now g i cx t0 hin hs hg] at h
        simp at h

/-- Processing id `i` neither changes another id's entry nor emits for it. -/
theorem gateStep_skip (cfg : GateCfg) (now : ℚ) (g : GateState) (i : ℕ) (cx : ℤ)
    (j : ℕ) (hj : j ≠ i) :
    (gateStep cfg now g i cx).1 j = g j ∧
      readingsFor j (gateStep cfg now g i cx).2.toList = [] := by
  refine ⟨gateStep_fst_ne cfg now g i cx j hj, ?_⟩
  cases hemit : (gateStep cfg now g i cx).2 with
  | none => rfl
  | some q =>
    have hq := gateStep_emit_key cfg now g i cx q hemit
    exact readingsFor_single_ne j q (by rw [hq]; exact Ne.symm hj)

/-- An id absent from the frame keeps its gate entry and gets no reading. -/
theorem observe_absent (cfg : GateCfg) (now : ℚ) (frame : List (ℕ × ℤ)) (objectID : ℕ)
    (h : objectID ∉ frame.map Prod.fst) (g : GateState) :
    (observe cfg now frame g).1 objectID = g objectID ∧
      readingsFor objectID (observe cfg now frame g).2 = [] := by
  induction frame generalizing g with
  | nil => exact ⟨rfl, rfl⟩
  | cons p rest ih =>
    simp only [List.map_cons, List.mem_cons, not_or] at h
    obtain ⟨hne, hrest⟩ := h
    rw [observe_cons]
    have hskip := gateStep_skip cfg now g p.1 p.2 objectID hne
    have ihh := ih hrest (gateStep cfg now g p.1 p.2).1
    refine ⟨ihh.1.trans hskip.1, ?_⟩
    rw [readingsFor_append, hskip.2, ihh.2]
    rfl

/-- An id supplied strictly inside the zone while Unseen gets the entry
timestamp `now` and no reading, whatever else is in the frame. -/
theorem observe_inside_new (cfg : GateCfg) (now : ℚ) (frame : List (ℕ × ℤ))
    (objectID : ℕ) (cx : ℤ) (hnd : (frame.map Prod.fst).Nodup)
    (hmem : (objectID, cx) ∈ frame)
    (hin : cfg.leftBound < cx ∧ cx < cfg.rightBound) (g : GateState)
    (hg : g objectID = none) :
    (observe cfg now frame g).1 objectID = some now ∧
      readingsFor objectID (observe cfg now frame g).2 = [] := by
  induction frame generalizing g with
  | nil => cases hmem
  | cons p rest ih =>
    rw [List.map_cons, List.nodup_cons] at hnd
    rw [observe_cons]
    rcases List.mem_cons.mp hmem with heq | hmem'
    · rw [← heq] at hnd ⊢
      rw [gateStep_inside_new cfg now g objectID cx hin hg]
      have habs := observe_absent cfg now rest objectID hnd.1 (gInsert g objectID now)
      refine ⟨habs.1.trans (by simp [gInsert]), ?_⟩
      rw [readingsFor_append, habs.2]
      rfl
    · have hne : objectID ≠ p.1 := by
        intro hx
        exact hnd.1 (hx ▸ List.mem_map_of_mem Prod.fst hmem')
      have hskip := gateStep_skip cfg now g p.1 p.2 objectID hne
      have ihh := ih hnd.2 hmem' (gateStep cfg now g p.1 p.2).1 (hskip.1.trans hg)
      refine ⟨ihh.1, ?_⟩
      rw [readingsFor_append, hskip.2, ihh.2]
      rfl

/-- An id supplied strictly outside both bounds while InZone: the call
emits exactly the one reading `(knownDistance / (now - t0)) * rateScale`
for it and deletes its entry. -/
theorem observe_exit (cfg : GateCfg) (now : ℚ) (frame : List (ℕ × ℤ))
    (objectID : ℕ) (cx : ℤ) (t0 : ℚ) (hnd : (frame.map Prod.fst).Nodup)
    (hmem : (objectID, cx) ∈ frame)
    (hstrict : cx < cfg.leftBound ∨ cfg.rightBound < cx) (g : GateState)
    (hg : g objectID = some t0) :
    (observe cfg now frame g).1 objectID = none ∧
      readingsFor objectID (observe cfg now frame g).2 =
        [(objectID, cfg.knownDistance / (now - t0) * cfg.rateScale)] := by
  induction frame generalizing g with
  | nil => cases hmem
  | cons p rest ih =>
    rw [List.map_cons, List.nodup_cons] at hnd
    rw [observe_cons]
    rcases List.mem_cons.mp hmem with heq | hmem'
    · rw [← heq] at hnd ⊢
      rw [gateStep_exit cfg now g objectID cx t0 hstrict hg]
      have habs := observe_absent cfg now rest objectID hnd.1 (gErase g objectID)
      refine ⟨habs.1.trans (by simp [gErase]), ?_⟩
      rw [readingsFor_append, habs.2]
      simp [readingsFor]
    · have hne : objectID ≠ p.1 := by
        intro hx
        exact hnd.1 (hx ▸ List.mem_map_of_mem Prod.fst hmem')
      have hskip := gateStep_skip cfg now g p.1 p.2 objectID hne
      have ihh := ih hnd.2 hmem' (gateStep cfg now g p.1 p.2).1 (hskip.1.trans hg)
      refine ⟨ihh.1, ?_⟩
      rw [readingsFor_append, hskip.2, ihh.2]
      rfl

/-- An Unseen id all of whose centroids in the frame are outside the zone
stays Unseen and gets no reading (no nodup assumption needed). -/
theorem observe_all_out (cfg : GateCfg) (now : ℚ) (frame : List (ℕ × ℤ))
    (objectID : ℕ)
    (hout : ∀ cx : ℤ, (objectID, cx) ∈ frame →
      ¬(cfg.leftBound < cx ∧ cx < cfg.rightBound)) (g : GateState)
    (hg : g objectID = none) :
    (observe cfg now frame g).1 objectID = none ∧
      readingsFor objectID (observe cfg now frame g).2 = [] := by
  induction frame generalizing g with
  | nil => exact ⟨hg, rfl⟩
  | cons p rest ih =>
    rw [observe_cons]
    by_cases hne : objectID = p.1
    · have hpm : (objectID, p.2) ∈ p :: rest := by
        rw [hne, Prod.mk.eta]
        exact List.mem_cons_self _ _
      have hcx := hout p.2 hpm
      have hstep : gateStep cfg now g p.1 p.2 = (g, none) := by
        rw [← hne]
        exact gateStep_out_none cfg now g objectID p.2 hcx hg
      rw [hstep]
      have ihh := ih (fun cx hcx' => hout cx (List.mem_cons_of_mem p hcx')) g hg
      refine ⟨ihh.1, ?_⟩
      rw [readingsFor_append, ihh.2]
      rfl
    · have hskip := gateStep_skip cfg now g p.1 p.2 objectID hne
      have ihh := ih (fun cx hcx' => hout cx (List.mem_cons_of_mem p hcx'))
        (gateStep cfg now g p.1 p.2).1 (hskip.1.trans hg)
      refine ⟨ihh.1, ?_⟩
      rw [readingsFor_append, hskip.2, ihh.2]
      rfl

/-- An InZone id all of whose centroids in the frame are strictly inside
the zone keeps its original entry timestamp and gets no reading. -/
theorem observe_inside_keep (cfg : GateCfg) (now : ℚ) (frame : List (ℕ × ℤ))
    (objectID : ℕ) (t0 : ℚ)
    (hins : ∀ cx : ℤ, (objectID, cx) ∈ frame →
      cfg.leftBound < cx ∧ cx < cfg.rightBound) (g : GateState)
    (hg : g objectID = some t0) :
    (observe cfg now frame g).1 objectID = some t0 ∧
      readingsFor objectID (observe cfg now frame g).2 = [] := by
  induction frame generalizing g with
  | nil => exact ⟨hg, rfl⟩
  | cons p rest ih =>
    rw [observe_cons]
    by_cases hne : objectID = p.1
    · have hpm : (objectID, p.2) ∈ p :: rest := by
        rw [hne, Prod.mk.eta]
        exact List.mem_cons_self _ _
      have hcx := hins p.2 hpm
      have hstep : gateStep cfg now g p.1 p.2 = (g, none) := by
        rw [← hne]
        exact gateStep_inside_old cfg now g objectID p.2 t0 hcx hg
      rw [hstep]
      have ihh := ih (fun cx hcx' => hins cx (List.mem_cons_of_mem p hcx')) g hg
      refine ⟨ihh.1, ?_⟩
      rw [readingsFor_append, ihh.2]
      rfl
    · have hskip := gateStep_skip cfg now g p.1 p.2 objectID hne
      have ihh := ih (fun cx hcx' => hins cx (List.mem_cons_of_mem p hcx'))
        (gateStep cfg now g p.1 p.2).1 (hskip.1.trans hg)
      refine ⟨ihh.1, ?_⟩
      rw [readingsFor_append, hskip.2, ihh.2]
      rfl

/-- Over a whole run of observe calls in which the id never appears,
its gate entry is untouched and no reading for it is ever emitted. -/
theorem observeRun_absent (cfg : GateCfg) (calls : List (ℚ × List (ℕ × ℤ)))
    (objectID : ℕ) (habs : ∀ c ∈ calls, objectID ∉ c.2.map Prod.fst)
    (g : GateState) :
    (observeRun cfg calls g).1 objectID = g objectID ∧
      readingsFor objectID (observeRun cfg calls g).2 = [] := by
  induction calls generalizing g with
  | nil => exact ⟨rfl, rfl⟩
  | cons c rest ih =>
    rw [observeRun_cons]
    have hc := observe_absent cfg c.1 c.2 objectID (habs c (List.mem_cons_self _ _)) g
    have ihh := ih (fun d hd => habs d (List.mem_cons_of_mem c hd)) (observe cfg c.1 c.2 g).1
    refine ⟨ihh.1.trans hc.1, ?_⟩
    rw [readingsFor_append, hc.2, ihh.2]
    rfl

/-- Over a whole run in which every centroid the id shows is outside the
zone, an Unseen id stays Unseen and no reading for it is emitted. -/
theorem observeRun_all_out (cfg : GateCfg) (calls : List (ℚ × List (ℕ × ℤ)))
    (objectID : ℕ)
    (hout : ∀ c ∈ calls, ∀ cx : ℤ, (objectID, cx) ∈ c.2 →
      ¬(cfg.leftBound < cx ∧ cx < cfg.rightBound)) (g : GateState)
    (hg : g objectID = none) :
    (observeRun cfg calls g).1 objectID = none ∧
      readingsFor objectID (observeRun cfg calls g).2 = [] := by
  induction calls generalizing g with
  | nil => exact ⟨hg, rfl⟩
  | cons c rest ih =>
    rw [observeRun_cons]
    have hc := observe_all_out cfg c.1 c.2 objectID
      (hout c (List.mem_cons_self _ _)) g hg
    have ihh := ih (fun d hd => hout d (List.mem_cons_of_mem c hd))
      (observe cfg c.1 c.2 g).1 hc.1
    refine ⟨ihh.1, ?_⟩
    rw [readingsFor_append, hc.2, ihh.2]
    rfl

/-- Over a whole run in which every centroid the id shows is strictly
inside the zone, an InZone id keeps its entry timestamp and no reading
for it is emitted. -/
theorem observeRun_inside_keep (cfg : GateCfg) (calls : List (ℚ × List (ℕ × ℤ)))
    (objectID : ℕ) (t0 : ℚ)
    (hins : ∀ c ∈ calls, ∀ cx : ℤ, (objectID, cx) ∈ c.2 →
      cfg.leftBound < cx ∧ cx < cfg.rightBound) (g : GateState)
    (hg : g objectID = some t0) :
    (observeRun cfg calls g).1 objectID = some t0 ∧
      readingsFor objectID (observeRun cfg calls g).2 = [] := by
  induction calls generalizing g with
  | nil => exact ⟨hg, rfl⟩
  | cons c rest ih =>
    rw [observeRun_cons]
    have hc := observe_inside_keep cfg c.1 c.2 objectID t0
      (hins c (List.mem_cons_self _ _)) g hg
    have ihh := ih (fun d hd => hins d (List.mem_cons_of_mem c hd))
      (observe cfg c.1 c.2 g).1 hc.1
    refine ⟨ihh.1, ?_⟩
    rw [readingsFor_append, hc.2, ihh.2]
    rfl

/-- C1 counterexample: with the source constants, an id InZone since t0 = 0
observed at centroid.x = 200 = leftBound (so centroid.x ≤ leftBound) at
now = 1 gets NO reading and its GateState entry is retained, contradicting
the claim that such a call emits exactly one reading and removes the
entry: the source's exit test (line 112) is strict. -/
theorem C1_cex_on_bound_no_emission :
    (observe srcCfg 1 [(0, 200)] (gInsert gEmpty 0 0)).2 = [] ∧
      (observe srcCfg 1 [(0, 200)] (gInsert gEmpty 0 0)).1 0 = some 0 := by
  norm_num [observe, gateStep, gInsert, gEmpty, srcCfg]

/-- C1 (amended): for every id with a GateState entry (entered at t0), if a
later observe call supplies a centroid for it with centroid.x strictly
less than leftBound or strictly greater than rightBound, that call emits
exactly one VelocityReading `(knownDistance / (now - t0)) * rateScale` for
the id and removes its entry (returns it to Unseen). -/
theorem C1_strict_exit_emits_once_and_clears (cfg : GateCfg) (now : ℚ)
    (frame : List (ℕ × ℤ)) (objectID : ℕ) (cx : ℤ) (t0 : ℚ)
    (hnd : (frame.map Prod.fst).Nodup) (hmem : (objectID, cx) ∈ frame)
    (hstrict : cx < cfg.leftBound ∨ cfg.rightBound < cx)
    (g : GateState) (hg : g objectID = some t0) :
    readingsFor objectID (observe cfg now frame g).2 =
        [(objectID, cfg.knownDistance / (now - t0) * cfg.rateScale)] ∧
      (observe cfg now frame g).1 objectID = none := by
  have h := observe_exit cfg now frame objectID cx t0 hnd hmem hstrict g hg
  exact ⟨h.2, h.1⟩

/-- C1 witness: the amended theorem applied to the source constants, an id
that entered at t0 = 1 and exits at x = 650 > 600 at now = 3. -/
theorem C1_strict_exit_witness :
    readingsFor 0 (observe srcCfg 3 [(0, 650)] (gInsert gEmpty 0 1)).2 =
        [(0, srcCfg.knownDistance / (3 - 1) * srcCfg.rateScale)] ∧
      (observe srcCfg 3 [(0, 650)] (gInsert gEmpty 0 1)).1 0 = none :=
  C1_strict_exit_emits_once_and_clears srcCfg 3 [(0, 650)] 0 650 1
    (by decide) (by decide) (by decide) (gInsert gEmpty 0 1) rfl

/-- C2: for an id with no GateState entry, an observe call creates an
entry — recording `now` — exactly when it supplies a centroid for the id
with leftBound < centroid.x < rightBound; if every centroid the frame
holds for the id (possibly none) is not strictly inside, no entry is
created. -/
theorem C2_entry_iff_strictly_inside (cfg : GateCfg) (now : ℚ)
    (frame : List (ℕ × ℤ)) (objectID : ℕ)
    (hnd : (frame.map Prod.fst).Nodup) (g : GateState)
    (hg : g objectID = none) :
    (∀ cx : ℤ, (objectID, cx) ∈ frame → cfg.leftBound < cx → cx < cfg.rightBound →
        (observe cfg now frame g).1 objectID = some now) ∧
      ((∀ cx : ℤ, (objectID, cx) ∈ frame →
          ¬(cfg.leftBound < cx ∧ cx < cfg.rightBound)) →
        (observe cfg now frame g).1 objectID = none) := by
  constructor
  · intro cx hmem h1 h2
    exact (observe_inside_new cfg now frame objectID cx hnd hmem ⟨h1, h2⟩ g hg).1
  · intro hout
    exact (observe_all_out cfg now frame objectID hout g hg).1

/-- C2 witness: the theorem at the source constants, id 5 observed at
x = 300 inside (200, 600) at time 7 from the empty gate state. -/
theorem C2_entry_witness :
    (∀ cx : ℤ, ((5 : ℕ), cx) ∈ [((5 : ℕ), (300 : ℤ))] →
        srcCfg.leftBound < cx → cx < srcCfg.rightBound →
        (observe srcCfg 7 [(5, 300)] gEmpty).1 5 = some 7) ∧
      ((∀ cx : ℤ, ((5 : ℕ), cx) ∈ [((5 : ℕ), (300 : ℤ))] →
          ¬(srcCfg.leftBound < cx ∧ cx < srcCfg.rightBound)) →
        (observe srcCfg 7 [(5, 300)] gEmpty).1 5 = none) :=
  C2_entry_iff_strictly_inside srcCfg 7 [(5, 300)] 5 (by decide) gEmpty rfl

/-- C3: with the source constants (leftBound 200, rightBound 600,
knownDistance 0.002, rateScale 3600), any single id observed at x = 150
at t = 0, x = 400 at t = 1 and x = 650 at t = 3 yields no reading at the
first two calls and exactly the one reading 3.6 = 18/5 at the third. -/
theorem C3_unit_scenario_reading (objectID : ℕ) :
    (observe srcCfg 0 [(objectID, 150)] gEmpty).2 = [] ∧
      (observe srcCfg 1 [(objectID, 400)]
          (observe srcCfg 0 [(objectID, 150)] gEmpty).1).2 = [] ∧
      (observe srcCfg 3 [(objectID, 650)]
          (observe srcCfg 1 [(objectID, 400)]
            (observe srcCfg 0 [(objectID, 150)] gEmpty).1).1).2 =
        [(objectID, 18/5)] := by
  norm_num [observe, gateStep, gInsert, gEmpty, srcCfg]

/-- C4: an id whose centroids are outside the zone in every call of a run
started from the empty gate state never acquires a GateState entry and
never receives a VelocityReading. -/
theorem C4_never_inzone_never_reads (cfg : GateCfg)
    (calls : List (ℚ × List (ℕ × ℤ))) (objectID : ℕ)
    (hout : ∀ c ∈ calls, ∀ cx : ℤ, (objectID, cx) ∈ c.2 →
      ¬(cfg.leftBound < cx ∧ cx < cfg.rightBound)) :
    (observeRun cfg calls gEmpty).1 objectID = none ∧
      readingsFor objectID (observeRun cfg calls gEmpty).2 = [] :=
  observeRun_all_out cfg calls objectID hout gEmpty rfl

/-- C4 witness: id 0 observed at x = 150 then x = 700, both outside
(200, 600), from startup: no entry and no reading. -/
theorem C4_never_inzone_witness :
    (observeRun srcCfg [(0, [(0, 150)]), (2, [(0, 700)])] gEmpty).1 0 = none ∧
      readingsFor 0 (observeRun srcCfg [(0, [(0, 150)]), (2, [(0, 700)])] gEmpty).2 = [] :=
  C4_never_inzone_never_reads srcCfg [(0, [(0, 150)]), (2, [(0, 700)])] 0
    (by
      intro c hc cx hcx
      simp only [List.mem_cons, List.not_mem_nil, or_false] at hc
      rcases hc with rfl | rfl <;>
        · simp only [List.mem_cons, List.not_mem_nil, or_false, Prod.mk.injEq,
            true_and] at hcx
          subst hcx
          decide)

/-- C5: an id with no GateState entry (in particular one whose entry was
just removed by an emission) that is observed strictly inside the zone at
t1 gets a fresh entry stamped t1; after any run of calls that keep it
inside, a strictly-outside observation at t2 emits exactly one new reading
`(knownDistance / (t2 - t1)) * rateScale` — computed from the second entry
time alone — and clears the entry again. -/
theorem C5_reentry_second_reading (cfg : GateCfg) (objectID : ℕ)
    (g : GateState) (hg : g objectID = none)
    (t1 : ℚ) (f1 : List (ℕ × ℤ)) (cx1 : ℤ)
    (hnd1 : (f1.map Prod.fst).Nodup) (hmem1 : (objectID, cx1) ∈ f1)
    (hin1 : cfg.leftBound < cx1 ∧ cx1 < cfg.rightBound)
    (mid : List (ℚ × List (ℕ × ℤ)))
    (hmid : ∀ c ∈ mid, ∀ cx : ℤ, (objectID, cx) ∈ c.2 →
      cfg.leftBound < cx ∧ cx < cfg.rightBound)
    (t2 : ℚ) (f2 : List (ℕ × ℤ)) (cx2 : ℤ)
    (hnd2 : (f2.map Prod.fst).Nodup) (hmem2 : (objectID, cx2) ∈ f2)
    (hstrict : cx2 < cfg.leftBound ∨ cfg.rightBound < cx2) :
    (observe cfg t1 f1 g).1 objectID = some t1 ∧
      (observeRun cfg mid (observe cfg t1 f1 g).1).1 objectID = some t1 ∧
      readingsFor objectID
          (observe cfg t2 f2 (observeRun cfg mid (observe cfg t1 f1 g).1).1).2 =
        [(objectID, cfg.knownDistance / (t2 - t1) * cfg.rateScale)] ∧
      (observe cfg t2 f2 (observeRun cfg mid (observe cfg t1 f1 g).1).1).1 objectID
        = none := by
  have h1 := observe_inside_new cfg t1 f1 objectID cx1 hnd1 hmem1 hin1 g hg
  have h2 := observeRun_inside_keep cfg mid objectID t1 hmid _ h1.1
  have h3 := observe_exit cfg t2 f2 objectID cx2 t1 hnd2 hmem2 hstrict _ h2.1
  exact ⟨h1.1, h2.1, h3.2, h3.1⟩

/-- C5 witness: id 0, fresh entry at t1 = 10 (x = 300), held inside at
t = 11 (x = 500), exit at t2 = 12 (x = 100): one reading from t1 alone. -/
theorem C5_reentry_witness :
    (observe srcCfg 10 [(0, 300)] gEmpty).1 0 = some 10 ∧
      (observeRun srcCfg [(11, [(0, 500)])]
          (observe srcCfg 10 [(0, 300)] gEmpty).1).1 0 = some 10 ∧
      readingsFor 0
          (observe srcCfg 12 [(0, 100)]
            (observeRun srcCfg [(11, [(0, 500)])]
              (observe srcCfg 10 [(0, 300)] gEmpty).1).1).2 =
        [(0, srcCfg.knownDistance / (12 - 10) * srcCfg.rateScale)] ∧
      (observe srcCfg 12 [(0, 100)]
          (observeRun srcCfg [(11, [(0, 500)])]
            (observe srcCfg 10 [(0, 300)] gEmpty).1).1).1 0 = none :=
  C5_reentry_second_reading srcCfg 0 gEmpty rfl 10 [(0, 300)] 300
    (by decide) (by decide) (by decide) [(11, [(0, 500)])]
    (by
      intro c hc cx hcx
      simp only [List.mem_cons, List.not_mem_nil, or_false] at hc
      subst hc
      simp only [List.mem_cons, List.not_mem_nil, or_false, Prod.mk.injEq,
        true_and] at hcx
      subst hcx
      decide)
    12 [(0, 100)] 100 (by decide) (by decide) (by decide)

/-- C6: an id holding a GateState entry (timestamp t0) that never appears
in any later frame mapping gets no VelocityReading, and its entry is
retained unchanged through every subsequent observe call. -/
theorem C6_lost_id_entry_stale (cfg : GateCfg)
    (calls : List (ℚ × List (ℕ × ℤ))) (objectID : ℕ) (t0 : ℚ)
    (g : GateState) (hg : g objectID = some t0)
    (habs : ∀ c ∈ calls, objectID ∉ c.2.map Prod.fst) :
    (observeRun cfg calls g).1 objectID = some t0 ∧
      readingsFor objectID (observeRun cfg calls g).2 = [] := by
  have h := observeRun_absent cfg calls objectID habs g
  exact ⟨h.1.trans hg, h.2⟩

/-- C6 witness: id 3 entered at t0 = 5, then two calls (one tracking only
id 1, one empty) never mention id 3: entry still reads 5, no reading. -/
theorem C6_lost_id_witness :
    (observeRun srcCfg [(6, [(1, 300)]), (7, [])] (gInsert gEmpty 3 5)).1 3 = some 5 ∧
      readingsFor 3 (observeRun srcCfg [(6, [(1, 300)]), (7, [])]
        (gInsert gEmpty 3 5)).2 = [] :=
  C6_lost_id_entry_stale srcCfg [(6, [(1, 300)]), (7, [])] 3 5
    (gInsert gEmpty 3 5) rfl (by decide)

/-- C10: when processing one id emits a reading, the reading carries that
very id, the only gate-state change is the removal of that id's own entry,
and every other id's entry is untouched; the id → centroid frame mapping
is read-only input to the gate in this embedding, mirroring that the
source's loop (and its reassignment of the loop variable to the velocity)
never writes to the tracker's output dict. -/
theorem C10_emission_local_effect (cfg : GateCfg) (now : ℚ) (g : GateState)
    (objectID : ℕ) (cx : ℤ) (q : ℕ × ℚ)
    (hemit : (gateStep cfg now g objectID cx).2 = some q) :
    q.1 = objectID ∧ (gateStep cfg now g objectID cx).1 objectID = none ∧
      ∀ j : ℕ, j ≠ objectID → (gateStep cfg now g objectID cx).1 j = g j := by
  refine ⟨gateStep_emit_key cfg now g objectID cx q hemit, ?_,
    fun j hj => gateStep_fst_ne cfg now g objectID cx j hj⟩
  cases hg : g objectID with
  | none =>
    by_cases hin : cfg.leftBound < cx ∧ cx < cfg.rightBound
    · rw [gateStep_inside_new cfg now g objectID cx hin hg] at hemit
      simp at hemit
    · rw [gateStep_out_none cfg now g objectID cx hin hg] at hemit
      simp at hemit
  | some t0 =>
    by_cases hin : cfg.leftBound < cx ∧ cx < cfg.rightBound
    · rw [gateStep_inside_old cfg now g objectID cx t0 hin hg] at hemit
      simp at hemit
    · by_cases hs : cx < cfg.leftBound ∨ cfg.rightBound < cx
      · rw [gateStep_exit cfg now g objectID cx t0 hs hg]
        simp [gErase]
      · rw [gateStep_boundary cfg now g objectID cx t0 hin hs hg] at hemit
        simp at hemit

/-- C10 witness: the emission for id 0 at x = 650 with entry t0 = 1 removes
exactly id 0's entry and leaves id 7's (absent) entry untouched. -/
theorem C10_emission_witness :
    ((0 : ℕ), srcCfg.knownDistance / (3 - 1) * srcCfg.rateScale).1 = 0 ∧
      (gateStep srcCfg 3 (gInsert gEmpty 0 1) 0 650).1 0 = none ∧
      ∀ j : ℕ, j ≠ 0 →
        (gateStep srcCfg 3 (gInsert gEmpty 0 1) 0 650).1 j = gInsert gEmpty 0 1 j :=
  C10_emission_local_effect srcCfg 3 (gInsert gEmpty 0 1) 0 650
    (0, srcCfg.knownDistance / (3 - 1) * srcCfg.rateScale)
    (by rw [gateStep_exit srcCfg 3 (gInsert gEmpty 0 1) 0 650 1 (by decide) rfl])

theorem registerAll_spec (cs : List (ℤ × ℤ)) (t : Tracker) :
    registerAll t cs =
      { registry := t.registry ++ freshEntries t.nextId cs,
        nextId := t.nextId + cs.length,
        maxDisappeared := t.maxDisappeared } := by
  induction cs generalizing t with
  | nil => simp [registerAll, freshEntries]
  | cons c rest ih =>
    have h1 : registerAll t (c :: rest) = registerAll (registerOne t c) rest := rfl
    rw [h1, ih]
    simp only [registerOne, freshEntries, Tracker.mk.injEq, List.append_assoc,
      List.singleton_append, List.length_cons]
    exact ⟨trivial, by omega, trivial⟩

theorem freshEntries_bounds (cs : List (ℤ × ℤ)) (n : ℕ) (e : ℕ × TrackedObject)
    (he : e ∈ freshEntries n cs) : n ≤ e.1 ∧ e.1 < n + cs.length := by
  induction cs generalizing n with
  | nil => cases he
  | cons c rest ih =>
    rcases List.mem_cons.mp he with heq | hmem
    · rw [heq]
      simp only [List.length_cons]
      omega
    · have h := ih (n + 1) hmem
      simp only [List.length_cons]
      omega

theorem freshEntries_map_fst (cs : List (ℤ × ℤ)) (n : ℕ) :
    (freshEntries n cs).map Prod.fst = List.range' n cs.length := by
  induction cs generalizing n with
  | nil => rfl
  | cons c rest ih => simp [freshEntries, List.range'_succ, ih]

theorem updateEmpty_mem (t : Tracker) (e : ℕ × TrackedObject)
    (he : e ∈ (updateEmpty t).registry) :
    ∃ e0 ∈ t.registry, e.1 = e0.1 ∧ e.2.centroid = e0.2.centroid ∧
      e.2.disappeared = e0.2.disappeared + 1 ∧
      e.2.disappeared ≤ t.maxDisappeared := by
  unfold updateEmpty at he
  rw [List.mem_filter] at he
  obtain ⟨hmap, hkeep⟩ := he
  rw [List.mem_map] at hmap
  obtain ⟨e0, he0, heq⟩ := hmap
  subst heq
  exact ⟨e0, he0, rfl, rfl, rfl, by simpa using hkeep⟩

theorem updateEmpty_maxD (t : Tracker) :
    (updateEmpty t).maxDisappeared = t.maxDisappeared := rfl

theorem updateEmpty_iter_maxD (k : ℕ) (t : Tracker) :
    (updateEmpty^[k] t).maxDisappeared = t.maxDisappeared := by
  induction k with
  | zero => rfl
  | succ n ih => rw [Function.iterate_succ_apply', updateEmpty_maxD, ih]

theorem updateEmpty_iter_mem (k : ℕ) (t : Tracker) :
    ∀ e ∈ (updateEmpty^[k] t).registry,
      ∃ e0 ∈ t.registry, e.2.disappeared = e0.2.disappeared + k ∧
        (1 ≤ k → e.2.disappeared ≤ t.maxDisappeared) := by
  induction k with
  | zero =>
    intro e he
    exact ⟨e, he, rfl, by omega⟩
  | succ n ih =>
    intro e he
    rw [Function.iterate_succ_apply'] at he
    obtain ⟨e1, he1, _, _, hdis, hbound⟩ :=
      updateEmpty_mem (updateEmpty^[n] t) e he
    obtain ⟨e0, he0, hdis0, _⟩ := ih e1 he1
    refine ⟨e0, he0, by omega, fun _ => ?_⟩
    rw [updateEmpty_iter_maxD] at hbound
    exact hbound

theorem updateEmpty_iter_clears (t : Tracker) :
    (updateEmpty^[t.maxDisappeared + 1] t).registry = [] := by
  rw [List.eq_nil_iff_forall_not_mem]
  intro e he
  obtain ⟨e0, _, hdis, hb⟩ :=
    updateEmpty_iter_mem (t.maxDisappeared + 1) t e he
  have := hb (by omega)
  omega

theorem keptRegistry_ids (t : Tracker) (cs : List (ℤ × ℤ)) :
    ∀ e2 ∈ keptRegistry t cs, ∃ e ∈ t.registry, e2.1 = e.1 := by
  intro e2 he2
  unfold keptRegistry at he2
  rw [List.mem_filterMap] at he2
  obtain ⟨e, he, hf⟩ := he2
  rw [Option.map_eq_some'] at hf
  obtain ⟨o, _, heq⟩ := hf
  exact ⟨e, he, by rw [← heq]⟩

theorem update_fst (t : Tracker) (boxes : List (ℤ × ℤ × ℤ × ℤ)) :
    (Tracker.update t boxes).1 =
      if t.registry.isEmpty then registerAll t (boxes.map centroidOf)
      else if (boxes.map centroidOf).isEmpty then updateEmpty t
      else updateMatched t (boxes.map centroidOf) := rfl

theorem update_nil_fst (t : Tracker) : (Tracker.update t []).1 = updateEmpty t := by
  obtain ⟨reg, ni, md⟩ := t
  cases reg with
  | nil => rfl
  | cons e rest => rfl

/-- Every update leaves a registry made of survivors (keeping their old
ids) followed by freshly registered entries with ids t.nextId, t.nextId+1,
…; nextId advances by exactly the number of registrations and
maxDisappeared is unchanged. -/
theorem update_shape (t : Tracker) (boxes : List (ℤ × ℤ × ℤ × ℤ)) :
    ∃ kept newcs,
      (∀ e2 ∈ kept, ∃ e ∈ t.registry, e2.1 = e.1) ∧
      (Tracker.update t boxes).1.registry = kept ++ freshEntries t.nextId newcs ∧
      (Tracker.update t boxes).1.nextId = t.nextId + newcs.length ∧
      (Tracker.update t boxes).1.maxDisappeared = t.maxDisappeared := by
  rw [update_fst]
  by_cases h1 : t.registry.isEmpty = true
  · rw [if_pos h1, registerAll_spec]
    exact ⟨t.registry, boxes.map centroidOf,
      fun e2 he2 => ⟨e2, he2, rfl⟩, rfl, rfl, rfl⟩
  · rw [if_neg h1]
    by_cases h2 : (boxes.map centroidOf).isEmpty = true
    · rw [if_pos h2]
      refine ⟨(updateEmpty t).registry, [],
        fun e2 he2 => ?_, by simp [freshEntries], rfl, rfl⟩
      obtain ⟨e0, he0, hid, _⟩ := updateEmpty_mem t e2 he2
      exact ⟨e0, he0, hid⟩
    · rw [if_neg h2]
      unfold updateMatched
      rw [registerAll_spec]
      exact ⟨keptRegistry t (boxes.map centroidOf),
        unmatchedCentroids t (boxes.map centroidOf),
        keptRegistry_ids t (boxes.map centroidOf), rfl, rfl, rfl⟩

/-- C7: ids are monotone and never reused — provided every registered id
is below nextId (true initially and preserved), after any update call:
(1) every registered id is still below the new nextId, (2) nextId never
decreases, (3) every registered entry either keeps an old id or got a
fresh id ≥ the old nextId, (4) the ids assigned in this call are exactly
the consecutive run nextId, nextId+1, … (so they are strictly increasing
and higher than every id ever assigned before), and (5) an object whose
detections are missing (empty input frames) for maxDisappeared + 1
consecutive frames is deregistered — the registry empties, after which any
registration gets a new, strictly higher id by (3) and (1). -/
theorem C7_id_monotone_never_reused (t : Tracker)
    (hInv : ∀ e ∈ t.registry, e.1 < t.nextId) (boxes : List (ℤ × ℤ × ℤ × ℤ)) :
    (∀ e ∈ (Tracker.update t boxes).1.registry,
        e.1 < (Tracker.update t boxes).1.nextId) ∧
      t.nextId ≤ (Tracker.update t boxes).1.nextId ∧
      (∀ e ∈ (Tracker.update t boxes).1.registry,
        (∃ e0 ∈ t.registry, e0.1 = e.1) ∨ t.nextId ≤ e.1) ∧
      ((Tracker.update t boxes).1.registry.map Prod.fst).filter
          (fun i => decide (t.nextId ≤ i)) =
        List.range' t.nextId ((Tracker.update t boxes).1.nextId - t.nextId) ∧
      ((fun s => (Tracker.update s []).1)^[t.maxDisappeared + 1] t).registry = [] := by
  obtain ⟨kept, newcs, hids, hreg, hnext, hmaxd⟩ := update_shape t boxes
  refine ⟨?_, ?_, ?_, ?_, ?_⟩
  · intro e he
    rw [hreg] at he
    rw [hnext]
    rcases List.mem_append.mp he with hk | hf
    · obtain ⟨e0, he0, hid⟩ := hids e hk
      have := hInv e0 he0
      omega
    · have := freshEntries_bounds newcs t.nextId e hf
      omega
  · rw [hnext]
    omega
  · intro e he
    rw [hreg] at he
    rcases List.mem_append.mp he with hk | hf
    · obtain ⟨e0, he0, hid⟩ := hids e hk
      exact Or.inl ⟨e0, he0, hid.symm⟩
    · exact Or.inr (freshEntries_bounds newcs t.nextId e hf).1
  · rw [hreg, hnext, List.map_append, List.filter_append]
    have hkept : (kept.map Prod.fst).filter (fun i => decide (t.nextId ≤ i)) = [] := by
      rw [List.filter_eq_nil_iff]
      intro a ha
      rw [List.mem_map] at ha
      obtain ⟨e2, he2, heq⟩ := ha
      obtain ⟨e0, he0, hid⟩ := hids e2 he2
      have := hInv e0 he0
      simp only [decide_eq_true_eq]
      omega
    have hfresh : ((freshEntries t.nextId newcs).map Prod.fst).filter
        (fun i => decide (t.nextId ≤ i)) =
        (freshEntries t.nextId newcs).map Prod.fst := by
      rw [List.filter_eq_self]
      intro a ha
      rw [List.mem_map] at ha
      obtain ⟨e2, he2, heq⟩ := ha
      have := (freshEntries_bounds newcs t.nextId e2 he2).1
      simp only [decide_eq_true_eq]
      omega
    rw [hkept, hfresh, List.nil_append, freshEntries_map_fst]
    have harith : t.nextId + newcs.length - t.nextId = newcs.length := by omega
    rw [harith]
  · have hfun : (fun s => (Tracker.update s []).1) = updateEmpty :=
      funext update_nil_fst
    rw [hfun]
    exact updateEmpty_iter_clears t

/-- C7 witness: the theorem applied to a tracker holding one object with
id 0, nextId 1 and maxDisappeared 2, updated with one detection box. -/
theorem C7_id_monotone_witness :
    (∀ e ∈ (Tracker.update (Tracker.mk [(0, TrackedObject.mk (300, 200) 0)] 1 2)
          [(10, 10, 20, 20)]).1.registry,
        e.1 < (Tracker.update (Tracker.mk [(0, TrackedObject.mk (300, 200) 0)] 1 2)
          [(10, 10, 20, 20)]).1.nextId) ∧
      (Tracker.mk [(0, TrackedObject.mk (300, 200) 0)] 1 2).nextId ≤
        (Tracker.update (Tracker.mk [(0, TrackedObject.mk (300, 200) 0)] 1 2)
          [(10, 10, 20, 20)]).1.nextId ∧
      (∀ e ∈ (Tracker.update (Tracker.mk [(0, TrackedObject.mk (300, 200) 0)] 1 2)
          [(10, 10, 20, 20)]).1.registry,
        (∃ e0 ∈ (Tracker.mk [(0, TrackedObject.mk (300, 200) 0)] 1 2).registry,
          e0.1 = e.1) ∨
          (Tracker.mk [(0, TrackedObject.mk (300, 200) 0)] 1 2).nextId ≤ e.1) ∧
      ((Tracker.update (Tracker.mk [(0, TrackedObject.mk (300, 200) 0)] 1 2)
            [(10, 10, 20, 20)]).1.registry.map Prod.fst).filter
          (fun i => decide ((Tracker.mk [(0, TrackedObject.mk (300, 200) 0)] 1 2).nextId ≤ i)) =
        List.range' (Tracker.mk [(0, TrackedObject.mk (300, 200) 0)] 1 2).nextId
          ((Tracker.update (Tracker.mk [(0, TrackedObject.mk (300, 200) 0)] 1 2)
              [(10, 10, 20, 20)]).1.nextId -
            (Tracker.mk [(0, TrackedObject.mk (300, 200) 0)] 1 2).nextId) ∧
      ((fun s => (Tracker.update s []).1)^[(Tracker.mk [(0, TrackedObject.mk (300, 200) 0)] 1 2).maxDisappeared + 1]
          (Tracker.mk [(0, TrackedObject.mk (300, 200) 0)] 1 2)).registry = [] :=
  C7_id_monotone_never_reused (Tracker.mk [(0, TrackedObject.mk (300, 200) 0)] 1 2)
    (by decide) [(10, 10, 20, 20)]

/-- C8: an update call with the empty box list increases every live
object's disappearedCount by exactly 1, removes exactly those whose count
then exceeds maxDisappeared, keeps every survivor's centroid unchanged,
and returns the mapping of all remaining ids to their current centroids. -/
theorem C8_empty_update_ages_and_prunes (t : Tracker) :
    (∀ (i : ℕ) (c : ℤ × ℤ) (d : ℕ), (i, TrackedObject.mk c d) ∈ t.registry →
        ((i, TrackedObject.mk c (d + 1)) ∈ (Tracker.update t []).1.registry ↔
          d + 1 ≤ t.maxDisappeared)) ∧
      (∀ e ∈ (Tracker.update t []).1.registry,
        ∃ d : ℕ, (e.1, TrackedObject.mk e.2.centroid d) ∈ t.registry ∧
          e.2.disappeared = d + 1 ∧ d + 1 ≤ t.maxDisappeared) ∧
      (Tracker.update t []).2 =
        (Tracker.update t []).1.registry.map fun e => (e.1, e.2.centroid) := by
  refine ⟨?_, ?_, rfl⟩
  · intro i c d hmem
    rw [update_nil_fst]
    unfold updateEmpty
    constructor
    · intro h
      rw [List.mem_filter] at h
      simpa using h.2
    · intro h
      rw [List.mem_filter]
      refine ⟨?_, by simpa⟩
      rw [List.mem_map]
      exact ⟨(i, TrackedObject.mk c d), hmem, rfl⟩
  · intro e he
    rw [update_nil_fst] at he
    obtain ⟨e0, he0, hid, hcent, hdis, hbound⟩ := updateEmpty_mem t e he
    refine ⟨e0.2.disappeared, ?_, by omega, by omega⟩
    rw [hid, hcent]
    have : (e0.1, TrackedObject.mk e0.2.centroid e0.2.disappeared) = e0 := rfl
    rw [this]
    exact he0

/-- C9: every box `findContours` returns is well-formed
(x_min ≤ x_max and y_min ≤ y_max, having the form [x, y, x+w, y+h] with
w, h ≥ 0), and the returned list is exactly the boxes of the contours
whose area strictly exceeds 1000, in contour-iteration order. -/
theorem C9_boxes_wellformed_filtered_ordered (cs : List Contour) :
    findContours cs = (cs.filter fun c => decide (1000 < c.area)).map boundingBoxOf ∧
      ∀ b ∈ findContours cs, b.1 ≤ b.2.2.1 ∧ b.2.1 ≤ b.2.2.2 := by
  have hfm : findContours cs =
      (cs.filter fun c => decide (1000 < c.area)).map boundingBoxOf := by
    induction cs with
    | nil => rfl
    | cons c rest ih =>
      by_cases h : 1000 < c.area
      · simp [findContours, h, ih]
      · simp [findContours, h, ih]
  refine ⟨hfm, ?_⟩
  intro b hb
  rw [hfm, List.mem_map] at hb
  obtain ⟨c, hc, heq⟩ := hb
  rw [← heq]
  constructor
  · show c.rectX ≤ c.rectX + (c.rectW : ℤ)
    omega
  · show c.rectY ≤ c.rectY + (c.rectH : ℤ)
    omega

end SpeedTracking
